/-
Verification of the analytical core of `energy_toolkit.py` (classes
`ProductionDataProcessor`, `LogFileAnalyzer`, `TimeSeriesAnalyzer`).

The Python code is shallowly embedded: production records become a structure
of optional string fields, numeric values become rationals (`ℚ`), and the
only genuinely real-valued quantity (the sample standard deviation, a square
root) lives in `ℝ`.  Each embedded definition carries a doc comment pointing
at the Python source it mirrors.  Python library primitives that the source
leans on (`float(str)`, `str.upper`, `str.strip`, substring tests, `re`)
are modelled by small executable Lean functions, documented at their
definitions.
-/
import Mathlib

namespace EnergyToolkit

/-! ### Model of Python library primitives -/

/-- Model of Python's `str.strip()`: drop whitespace from both ends. -/
def pyStrip (s : String) : String :=
  ⟨((s.toList.dropWhile Char.isWhitespace).reverse.dropWhile Char.isWhitespace).reverse⟩

/-- Model of Python's `str.upper()` (ASCII case folding, which covers the
severity tokens the source matches on). -/
def pyUpper (s : String) : String :=
  ⟨s.toList.map Char.toUpper⟩

/-- Value of a list of decimal digit characters, most significant first.
Models the digit-string part of Python's `float(str)` parsing. -/
def digitsToNat (ds : List Char) : ℕ :=
  ds.foldl (fun n c => n * 10 + (c.toNat - '0'.toNat)) 0

/-- Parse an unsigned decimal literal: `123`, `123.`, `.5`, `1.5`.
Helper for `pyFloat`. -/
def pyFloatUnsigned (s : List Char) : Option ℚ :=
  let intPart := s.takeWhile Char.isDigit
  let rest := s.dropWhile Char.isDigit
  match rest with
  | [] => if intPart.isEmpty then none else some (digitsToNat intPart : ℚ)
  | '.' :: rest2 =>
    let fracPart := rest2.takeWhile Char.isDigit
    let rest3 := rest2.dropWhile Char.isDigit
    if rest3.isEmpty && (!intPart.isEmpty || !fracPart.isEmpty) then
      some ((digitsToNat intPart : ℚ) + (digitsToNat fracPart : ℚ) / 10 ^ fracPart.length)
    else none
  | _ => none

/-- Model of Python's `float(str)`: surrounding whitespace is stripped, an
optional sign is followed by a decimal literal.  Exponents, `inf` and `nan`
are not modelled (they count as parse failures); every claim below depends
only on which strings parse, not on any particular parse result. -/
def pyFloat (s : String) : Option ℚ :=
  match (pyStrip s).toList with
  | '-' :: rest => (pyFloatUnsigned rest).map (fun q => -q)
  | '+' :: rest => pyFloatUnsigned rest
  | rest => pyFloatUnsigned rest

/-- Case-insensitive-ready substring containment: models Python's
`pat in s` on strings (the callers below upper-case both sides first,
mirroring the source). -/
def hasSubstr (s pat : String) : Bool := decide (pat.toList <:+: s.toList)

/-- Model of `statistics.mean`: sum divided by length.  Python raises
`StatisticsError` on an empty list; every call site in the source guards
against that, and on `[]` this model returns `0` (division by zero in `ℚ`),
a value no claim depends on. -/
def mean (l : List ℚ) : ℚ := l.sum / (l.length : ℚ)

/-! ### Data model -/

/-- A production record as produced by `csv.DictReader`: a mapping from
field names to strings in which any field may be absent.  Only the fields
the analytical core reads (`date`, `production`) are modelled. -/
structure PRecord where
  date : Option String
  production : Option String
  deriving DecidableEq

/-! ### Aggregator: `ProductionDataProcessor.calculate_daily_average` -/

/-- The parse used by the aggregation methods, modelling
`float(row.get('production', 0))` (lines 64 and 74): a missing field
defaults to `0` (which parses successfully), a present field is parsed
by `float`. -/
def prodOrZero (row : PRecord) : Option ℚ :=
  match row.production with
  | none => some 0
  | some s => pyFloat s

/-- The list `productions` built by the loop of
`calculate_daily_average` (lines 61-66): parses each record with
`prodOrZero`, dropping records whose parse raises `ValueError`. -/
def parsedProductions (data : List PRecord) : List ℚ :=
  data.filterMap prodOrZero

/-- Embedding of `ProductionDataProcessor.calculate_daily_average`
(src/energy_toolkit.py lines 59-67). -/
def calculate_daily_average (data : List PRecord) : ℚ :=
  if parsedProductions data = [] then 0 else mean (parsedProductions data)

/-! ### Theorems for claim C5 -/

/-- C5. `calculate_daily_average` parses the production of each record,
skipping unparsable entries without failing, treats a missing `production`
field as contributing `0`, and returns the arithmetic mean of the parsed
values; when no record parses successfully it returns exactly `0`. -/
theorem calculate_daily_average_spec (data : List PRecord) :
    (parsedProductions data = [] → calculate_daily_average data = 0)
    ∧ (parsedProductions data ≠ [] →
        calculate_daily_average data =
          (parsedProductions data).sum / ((parsedProductions data).length : ℚ))
    ∧ (∀ pre post r, r.production = none →
        parsedProductions (pre ++ r :: post) =
          parsedProductions pre ++ 0 :: parsedProductions post)
    ∧ (∀ pre post r s, r.production = some s → pyFloat s = none →
        parsedProductions (pre ++ r :: post) =
          parsedProductions pre ++ parsedProductions post) := by
  refine ⟨fun h => by simp [calculate_daily_average, h], fun h => ?_, ?_, ?_⟩
  · simp [calculate_daily_average, h, mean]
  · intro pre post r hr
    simp [parsedProductions, List.filterMap_append, prodOrZero, hr]
  · intro pre post r s hr hs
    simp [parsedProductions, List.filterMap_append, prodOrZero, hr, hs]

/-- Witness for C5 at concrete inputs: a record with a missing field
contributes a parsed `0`, an unparsable record is skipped, and the
all-unparsable list averages to exactly `0`. -/
theorem calculate_daily_average_spec_witness :
    parsedProductions [⟨some "d1", none⟩] = [0]
    ∧ calculate_daily_average [⟨some "d1", none⟩] = 0
    ∧ calculate_daily_average [⟨some "d1", some "abc"⟩] = 0 := by
  have h1 := (calculate_daily_average_spec [⟨some "d1", none⟩]).2.2.1
    [] [] ⟨some "d1", none⟩ rfl
  have h2 := (calculate_daily_average_spec [⟨some "d1", none⟩]).2.1
  have h3 := (calculate_daily_average_spec [⟨some "d1", some "abc"⟩]).1
  refine ⟨by simpa [parsedProductions] using h1, ?_, ?_⟩
  · rw [h2 (by simp [parsedProductions, prodOrZero])]
    simp [parsedProductions, prodOrZero]
  · exact h3 (by decide)

/-! ### Record Validator: `ProductionDataProcessor.validate_data` -/

/-- Offending value attached to a validation error: the source stores the
parsed float for negative values and the raw string for malformed ones
(a heterogeneous dict value in Python). -/
inductive ErrorValue where
  | num (q : ℚ)
  | raw (s : String)
  deriving DecidableEq

/-- One entry of the list returned by `validate_data`: the dict
`{'row': ..., 'error': ..., 'value': ...}` of lines 46-50 and 52-56. -/
structure VError where
  row : ℕ
  error : String
  value : ErrorValue
  deriving DecidableEq

/-- Loop body of `validate_data` (lines 41-56): `i` is the 0-based
position of the first record of the remaining list, mirroring
`for i, row in enumerate(self.data)`. -/
def validateFrom (i : ℕ) : List PRecord → List VError
  | [] => []
  | row :: rest =>
    match row.production with
    | none => validateFrom (i + 1) rest
    | some s =>
      match pyFloat s with
      | some prod =>
        if prod < 0 then
          ⟨i + 1, "Negative production value", ErrorValue.num prod⟩ :: validateFrom (i + 1) rest
        else validateFrom (i + 1) rest
      | none =>
        ⟨i + 1, "Invalid production value", ErrorValue.raw s⟩ :: validateFrom (i + 1) rest

/-- Embedding of `ProductionDataProcessor.validate_data`
(src/energy_toolkit.py lines 35-57). -/
def validate_data (data : List PRecord) : List VError := validateFrom 0 data

/-- Error kinds of the specification's `ValidationError`. -/
inductive ErrKind where
  | NegativeValue
  | MalformedValue
  deriving DecidableEq

/-- The specification's `ValidationError`: `{row_index, kind, offending_value}`. -/
structure SpecError where
  row : ℕ
  kind : ErrKind
  value : ErrorValue
  deriving DecidableEq

/-- Spec-side validator, written from the specification's words: one error
per offending record in row order (1-based); a record missing the
production field is silently skipped; an unparsable value yields
`MalformedValue` carrying the raw string; a parsed value `< 0` yields
`NegativeValue` carrying the parsed float. -/
def specValidateFrom (i : ℕ) : List PRecord → List SpecError
  | [] => []
  | row :: rest =>
    match row.production with
    | none => specValidateFrom (i + 1) rest
    | some s =>
      match pyFloat s with
      | some prod =>
        if prod < 0 then
          ⟨i + 1, ErrKind.NegativeValue, ErrorValue.num prod⟩ :: specValidateFrom (i + 1) rest
        else specValidateFrom (i + 1) rest
      | none =>
        ⟨i + 1, ErrKind.MalformedValue, ErrorValue.raw s⟩ :: specValidateFrom (i + 1) rest

/-- Spec-side validator over a whole record list. -/
def specValidate (data : List PRecord) : List SpecError := specValidateFrom 0 data

/-- Rendering of a spec-side error kind as the message string the source
stores under the `error` key. -/
def kindMessage : ErrKind → String
  | ErrKind.NegativeValue => "Negative production value"
  | ErrKind.MalformedValue => "Invalid production value"

/-- The source validator agrees with the spec-side validator, error by
error, for any starting index. -/
theorem validateFrom_eq_spec (data : List PRecord) : ∀ i : ℕ,
    validateFrom i data = (specValidateFrom i data).map
      (fun e => ⟨e.row, kindMessage e.kind, e.value⟩) := by
  induction data with
  | nil => intro i; rfl
  | cons row rest ih =>
    intro i
    cases hp : row.production with
    | none => simpa [validateFrom, specValidateFrom, hp] using ih (i + 1)
    | some s =>
      cases hf : pyFloat s with
      | none => simp [validateFrom, specValidateFrom, hp, hf, kindMessage, ih (i + 1)]
      | some prod =>
        by_cases hneg : prod < 0 <;>
          simp [validateFrom, specValidateFrom, hp, hf, hneg, kindMessage, ih (i + 1)]

/-- Every error reported by `validateFrom i` has a row index strictly
greater than `i`. -/
theorem validateFrom_row_gt (data : List PRecord) : ∀ i : ℕ,
    ∀ e ∈ validateFrom i data, i < e.row := by
  induction data with
  | nil => intro i e he; simp [validateFrom] at he
  | cons row rest ih =>
    intro i e he
    cases hp : row.production with
    | none =>
      rw [show validateFrom i (row :: rest) = validateFrom (i + 1) rest by
        simp [validateFrom, hp]] at he
      exact Nat.lt_of_succ_lt (ih (i + 1) e he)
    | some s =>
      cases hf : pyFloat s with
      | none =>
        rw [show validateFrom i (row :: rest) =
            ⟨i + 1, "Invalid production value", ErrorValue.raw s⟩ :: validateFrom (i + 1) rest by
          simp [validateFrom, hp, hf]] at he
        rcases List.mem_cons.mp he with h | h
        · simp [h]
        · exact Nat.lt_of_succ_lt (ih (i + 1) e h)
      | some prod =>
        by_cases hneg : prod < 0
        · rw [show validateFrom i (row :: rest) =
              ⟨i + 1, "Negative production value", ErrorValue.num prod⟩ ::
                validateFrom (i + 1) rest by
            simp [validateFrom, hp, hf, hneg]] at he
          rcases List.mem_cons.mp he with h | h
          · simp [h]
          · exact Nat.lt_of_succ_lt (ih (i + 1) e h)
        · rw [show validateFrom i (row :: rest) = validateFrom (i + 1) rest by
            simp [validateFrom, hp, hf, hneg]] at he
          exact Nat.lt_of_succ_lt (ih (i + 1) e he)

/-- Errors come out with strictly increasing row indices. -/
theorem validateFrom_pairwise (data : List PRecord) : ∀ i : ℕ,
    (validateFrom i data).Pairwise (fun a b => a.row < b.row) := by
  induction data with
  | nil => intro i; simp [validateFrom]
  | cons row rest ih =>
    intro i
    cases hp : row.production with
    | none =>
      rw [show validateFrom i (row :: rest) = validateFrom (i + 1) rest by
        simp [validateFrom, hp]]
      exact ih (i + 1)
    | some s =>
      cases hf : pyFloat s with
      | none =>
        rw [show validateFrom i (row :: rest) =
            ⟨i + 1, "Invalid production value", ErrorValue.raw s⟩ :: validateFrom (i + 1) rest by
          simp [validateFrom, hp, hf]]
        refine List.pairwise_cons.mpr ⟨?_, ih (i + 1)⟩
        intro e he
        exact validateFrom_row_gt rest (i + 1) e he
      | some prod =>
        by_cases hneg : prod < 0
        · rw [show validateFrom i (row :: rest) =
              ⟨i + 1, "Negative production value", ErrorValue.num prod⟩ ::
                validateFrom (i + 1) rest by
            simp [validateFrom, hp, hf, hneg]]
          refine List.pairwise_cons.mpr ⟨?_, ih (i + 1)⟩
          intro e he
          exact validateFrom_row_gt rest (i + 1) e he
        · rw [show validateFrom i (row :: rest) = validateFrom (i + 1) rest by
            simp [validateFrom, hp, hf, hneg]]
          exact ih (i + 1)

/-! ### Theorems for claim C4 -/

/-- C4. `validate_data` returns validation errors in row order (1-based,
strictly increasing row indices): a record missing the `production` field
produces no error, an unparsable value produces a MalformedValue error
carrying the raw string, a parsed value `< 0` produces a NegativeValue
error carrying the parsed float; as a total Lean function it never throws. -/
theorem validate_data_spec (data : List PRecord) :
    validate_data data = (specValidate data).map
      (fun e => ⟨e.row, kindMessage e.kind, e.value⟩)
    ∧ (validate_data data).Pairwise (fun a b => a.row < b.row) := by
  exact ⟨validateFrom_eq_spec data 0, validateFrom_pairwise data 0⟩

/-! ### Python list slicing -/

/-- Model of Python's slice `l[a:b]` for arbitrary integer bounds: a
negative bound counts from the end, and both bounds are clamped to
`[0, len(l)]`. -/
def pySlice {α : Type} (l : List α) (a b : ℤ) : List α :=
  let n : ℤ := l.length
  let a' : ℤ := if a < 0 then max (n + a) 0 else min a n
  let b' : ℤ := if b < 0 then max (n + b) 0 else min b n
  (l.take b'.toNat).drop a'.toNat

/-- For in-range nonnegative bounds, the Python slice is take-then-drop. -/
theorem pySlice_eq {α : Type} (l : List α) (a b : ℤ) (ha0 : 0 ≤ a)
    (ha : a ≤ (l.length : ℤ)) (hb0 : 0 ≤ b) (hb : b ≤ (l.length : ℤ)) :
    pySlice l a b = (l.take b.toNat).drop a.toNat := by
  simp only [pySlice]
  rw [if_neg (by omega), if_neg (by omega),
    show (min a (l.length : ℤ)).toNat = a.toNat from by omega,
    show (min b (l.length : ℤ)).toNat = b.toNat from by omega]

/-! ### Time-Series Analyzer: `TimeSeriesAnalyzer.moving_average` -/

/-- Embedding of `TimeSeriesAnalyzer.moving_average`
(src/energy_toolkit.py lines 143-151): when the series is shorter than
the window, the series itself; otherwise the list of
`sum(data[i:i+window]) / window`.  The Python `window` is an `int`; for
`window = 0` Python would raise `ZeroDivisionError`, while this model
totalises the division as `0` (no claim touches that case). -/
def moving_average (data : List ℚ) (window : ℤ) : List ℚ :=
  if (data.length : ℤ) < window then data
  else
    (List.range (((data.length : ℤ) - window + 1).toNat)).map
      (fun (i : ℕ) => (pySlice data (i : ℤ) ((i : ℤ) + window)).sum / (window : ℚ))

/-! ### Theorems for claim C3 -/

/-- C3. `moving_average` returns the series unchanged when its length is
strictly below the window; otherwise, for `window ≥ 1`, it returns exactly
`len - window + 1` values, the i-th being the arithmetic mean of the
contiguous window of length `window` starting at index `i`. -/
theorem moving_average_spec (data : List ℚ) (w : ℤ) :
    ((data.length : ℤ) < w → moving_average data w = data)
    ∧ (1 ≤ w → w ≤ (data.length : ℤ) →
        moving_average data w =
          (List.range (data.length - w.toNat + 1)).map
            (fun i => mean ((data.drop i).take w.toNat))
        ∧ (moving_average data w).length = data.length - w.toNat + 1
        ∧ ∀ i ∈ List.range (data.length - w.toNat + 1),
            ((data.drop i).take w.toNat).length = w.toNat) := by
  constructor
  · intro h
    simp [moving_average, h]
  · intro hw1 hw2
    have hwin : ∀ i ∈ List.range (data.length - w.toNat + 1),
        ((data.drop i).take w.toNat).length = w.toNat := by
      intro i hi
      rw [List.mem_range] at hi
      simp only [List.length_take, List.length_drop]
      omega
    have key : ∀ i ∈ List.range (data.length - w.toNat + 1),
        (pySlice data (i : ℤ) ((i : ℤ) + w)).sum / (w : ℚ) =
          mean ((data.drop i).take w.toNat) := by
      intro i hi
      rw [List.mem_range] at hi
      rw [pySlice_eq data _ _ (by omega) (by omega) (by omega) (by omega),
        show ((i : ℤ) + w).toNat = i + w.toNat from by omega,
        show ((i : ℤ)).toNat = i from by omega,
        ← List.take_drop, mean, hwin i (List.mem_range.mpr hi)]
      rw [show ((w.toNat : ℚ)) = (w : ℚ) from by exact_mod_cast Int.toNat_of_nonneg (by omega)]
    have hmap : moving_average data w =
        (List.range (data.length - w.toNat + 1)).map
          (fun i => mean ((data.drop i).take w.toNat)) := by
      simp only [moving_average, if_neg (show ¬((data.length : ℤ) < w) from by omega)]
      rw [show (((data.length : ℤ) - w + 1)).toNat = data.length - w.toNat + 1 from by omega]
      exact List.map_congr_left key
    refine ⟨hmap, ?_, hwin⟩
    rw [hmap]
    simp

/-- Witness for C3: the specification's own examples, window 3 over
`[1,2,3,4,5]` and a window longer than the series. -/
theorem moving_average_spec_witness :
    moving_average [1, 2, 3, 4, 5] 3 = [2, 3, 4] ∧ moving_average [1, 2] 5 = [1, 2] := by
  have h1 := (moving_average_spec [1, 2, 3, 4, 5] 3).2 (by decide) (by decide)
  have h2 := (moving_average_spec [1, 2] 5).1 (by decide)
  refine ⟨?_, h2⟩
  rw [h1.1]
  norm_num [show (3 : ℤ).toNat = 3 from rfl, List.range_succ, mean]

/-! ### Time-Series Analyzer: `TimeSeriesAnalyzer.calculate_trend` -/

/-- Embedding of `TimeSeriesAnalyzer.calculate_trend`
(src/energy_toolkit.py lines 171-186): split at the floor midpoint,
compare half means, classify by the ±5 percent thresholds. -/
def calculate_trend (data : List ℚ) : String :=
  if data.length < 2 then "insufficient_data"
  else
    let mid := data.length / 2
    let avg_first := mean (data.take mid)
    let avg_second := mean (data.drop mid)
    let diff_percent := if avg_first > 0 then (avg_second - avg_first) / avg_first * 100 else 0
    if diff_percent > 5 then "increasing"
    else if diff_percent < -5 then "decreasing"
    else "stable"

/-- The specification's trend classification. -/
inductive Trend where
  | InsufficientData
  | Increasing
  | Decreasing
  | Stable
  deriving DecidableEq

/-- Spec-side trend classifier, written from the specification's words:
length below 2 gives InsufficientData; otherwise split at the
integer-floor midpoint into halves `[0, mid)` and `[mid, len)`, compute
each half's mean, set percent change to `(mean2 - mean1)/mean1 * 100`
when `mean1 > 0` and to `0` otherwise, and classify by the thresholds
`> 5` (Increasing) and `< -5` (Decreasing), Stable in between. -/
def classifyTrend (data : List ℚ) : Trend :=
  if data.length < 2 then Trend.InsufficientData
  else
    let mid := data.length / 2
    let mean1 := mean (data.take mid)
    let mean2 := mean (data.drop mid)
    let pct := if mean1 > 0 then (mean2 - mean1) / mean1 * 100 else 0
    if pct > 5 then Trend.Increasing
    else if pct < -5 then Trend.Decreasing
    else Trend.Stable

/-- The string labels the source returns for each spec-side trend value. -/
def trendLabel : Trend → String
  | Trend.InsufficientData => "insufficient_data"
  | Trend.Increasing => "increasing"
  | Trend.Decreasing => "decreasing"
  | Trend.Stable => "stable"

/-! ### Theorems for claim C7 -/

/-- C7. `calculate_trend` realises the specification's trend
classification: InsufficientData below length 2, otherwise the halves
`[0, mid)` and `[mid, len)` at the floor midpoint are compared by mean,
with percent change forced to 0 when the first half's mean is not
positive, and the ±5 thresholds decide Increasing/Decreasing/Stable. -/
theorem calculate_trend_spec (data : List ℚ) :
    calculate_trend data = trendLabel (classifyTrend data) := by
  simp only [calculate_trend, classifyTrend]
  split
  · rfl
  · split <;> split <;> first | rfl | (split <;> rfl)

/-! ### Aggregator: `ProductionDataProcessor.get_top_days` -/

/-- The specification's `RankedDay`: the dict `{'date': ..., 'production': ...}`
built on lines 75-78. -/
structure RankedDay where
  date : String
  production : ℚ
  deriving DecidableEq

/-- The comparison under Python's `sorted(valid_data, key=lambda x:
x['production'], reverse=True)`: a record sorts no later than another when
its production is at least as large.  Python's sort is stable, as is
`List.mergeSort`, so ties keep input order under both. -/
def leProd (a b : RankedDay) : Bool := decide (b.production ≤ a.production)

/-- The list `valid_data` of `get_top_days` (lines 71-80): each record
parsed by the missing-defaults-to-0 pattern, unparsable records skipped,
a missing date rendered as `"Unknown"`. -/
def topValid (data : List PRecord) : List RankedDay :=
  data.filterMap (fun row => (prodOrZero row).map
    (fun q => ⟨row.date.getD "Unknown", q⟩))

/-- The list `sorted_data` of line 82: stable descending sort by production. -/
def sortedValid (data : List PRecord) : List RankedDay :=
  (topValid data).mergeSort leProd

/-- Embedding of `ProductionDataProcessor.get_top_days`
(src/energy_toolkit.py lines 69-83): Python's `sorted_data[:n]` is the
slice `pySlice _ 0 n`, whose semantics for negative `n` drops the last
`|n|` elements rather than yielding `[]`. -/
def get_top_days (data : List PRecord) (n : ℤ) : List RankedDay :=
  pySlice (sortedValid data) 0 n

/-- The Python default argument `n = 5` of `get_top_days`. -/
def get_top_days_default (data : List PRecord) : List RankedDay :=
  get_top_days data 5

/-- Transitivity of the descending comparison. -/
theorem leProd_trans : ∀ a b c : RankedDay, leProd a b → leProd b c → leProd a c := by
  intro a b c hab hbc
  simp only [leProd, decide_eq_true_iff] at *
  exact le_trans hbc hab

/-- Totality of the descending comparison. -/
theorem leProd_total : ∀ a b : RankedDay, leProd a b || leProd b a := by
  intro a b
  simp only [leProd, Bool.or_eq_true, decide_eq_true_iff]
  exact le_total b.production a.production

/-- Python's `l[:n]` for nonnegative `n` is `take`. -/
theorem pySlice_zero {α : Type} (l : List α) (n : ℤ) (hn : 0 ≤ n) :
    pySlice l 0 n = l.take n.toNat := by
  by_cases h : n ≤ (l.length : ℤ)
  · rw [pySlice_eq l 0 n le_rfl (by omega) hn h]
    simp
  · simp only [pySlice]
    rw [if_neg (by omega), if_neg (by omega),
      show (min (0 : ℤ) (l.length : ℤ)).toNat = 0 from by omega,
      show (min n (l.length : ℤ)).toNat = l.length from by omega]
    rw [List.drop_zero, List.take_length, List.take_of_length_le (by omega)]

/-- Python's `l[:n]` for negative `n` keeps the first `len + n` elements
(all the way down to none). -/
theorem pySlice_zero_neg {α : Type} (l : List α) (n : ℤ) (hn : n < 0) :
    pySlice l 0 n = l.take ((l.length : ℤ) + n).toNat := by
  simp only [pySlice]
  rw [if_neg (by omega), if_pos (by omega),
    show (min (0 : ℤ) (l.length : ℤ)).toNat = 0 from by omega,
    show (max ((l.length : ℤ) + n) 0).toNat = ((l.length : ℤ) + n).toNat from by omega,
    List.drop_zero]

/-! ### Theorems for claim C1 -/

/-- C1 (amended). `get_top_days` parses each record by the
missing-defaults-to-0 pattern (skipping unparsable records), sorts
descending by production — a stable sort: it is a permutation of the
parsed list, pairwise descending, and every descending subsequence of the
parsed list survives into it — and then applies Python's `[:n]`: for
`n ≥ 0` it truncates to the first `n` entries (so `n = 0` gives `[]`, and
`n` defaults to `5`), while for `n < 0` it keeps the first `len + n`
entries, which is empty only when `|n|` reaches the list length. -/
theorem get_top_days_spec (data : List PRecord) (n : ℤ) :
    (0 ≤ n → get_top_days data n = (sortedValid data).take n.toNat)
    ∧ (n < 0 → get_top_days data n =
        (sortedValid data).take (((topValid data).length : ℤ) + n).toNat)
    ∧ (n = 0 → get_top_days data n = [])
    ∧ get_top_days_default data = get_top_days data 5
    ∧ List.Perm (sortedValid data) (topValid data)
    ∧ (sortedValid data).Pairwise (fun a b => b.production ≤ a.production)
    ∧ (∀ c : List RankedDay, c.Pairwise (fun a b => b.production ≤ a.production) →
        List.Sublist c (topValid data) → List.Sublist c (sortedValid data)) := by
  refine ⟨fun h => pySlice_zero _ n h, fun h => ?_, fun h => ?_, rfl, ?_, ?_, ?_⟩
  · rw [get_top_days, pySlice_zero_neg _ n h, sortedValid, List.length_mergeSort]
  · rw [get_top_days, h, pySlice_zero _ 0 le_rfl]
    simp
  · exact List.mergeSort_perm (topValid data) leProd
  · exact (List.sorted_mergeSort leProd_trans leProd_total (topValid data)).imp
      (fun h => by simpa [leProd] using h)
  · intro c hc hsub
    exact List.sublist_mergeSort leProd_trans leProd_total
      (hc.imp (fun h => by simpa [leProd] using h)) hsub

unseal List.merge List.mergeSort

/-- Witness for C1 on the specification's own example (productions
10, 30, 20): `n = 0` yields the empty list and `n = 2` yields the top two
days in descending order. -/
theorem get_top_days_spec_witness :
    get_top_days [⟨some "d1", some "10"⟩, ⟨some "d2", some "30"⟩,
        ⟨some "d3", some "20"⟩] 0 = []
    ∧ get_top_days [⟨some "d1", some "10"⟩, ⟨some "d2", some "30"⟩,
        ⟨some "d3", some "20"⟩] 2 = [⟨"d2", 30⟩, ⟨"d3", 20⟩] := by
  constructor
  · exact (get_top_days_spec [⟨some "d1", some "10"⟩, ⟨some "d2", some "30"⟩,
      ⟨some "d3", some "20"⟩] 0).2.2.1 rfl
  · rw [(get_top_days_spec [⟨some "d1", some "10"⟩, ⟨some "d2", some "30"⟩,
      ⟨some "d3", some "20"⟩] 2).1 (by omega)]
    decide

/-- C1 as frozen is false: on productions 10, 30, 20 with `n = -1` the
source returns the two best days, not the empty sequence, because
Python's `sorted_data[:-1]` drops only the final element. -/
theorem get_top_days_neg_counterexample :
    get_top_days [⟨some "d1", some "10"⟩, ⟨some "d2", some "30"⟩,
        ⟨some "d3", some "20"⟩] (-1) = [⟨"d2", 30⟩, ⟨"d3", 20⟩]
    ∧ get_top_days [⟨some "d1", some "10"⟩, ⟨some "d2", some "30"⟩,
        ⟨some "d3", some "20"⟩] (-1) ≠ ([] : List RankedDay) := by
  constructor
  · decide
  · decide

/-! ### Log Classifier: `LogFileAnalyzer.count_by_level` and
`LogFileAnalyzer.extract_errors` -/

/-- One increment of Python's `defaultdict(int)` under insertion-order
`dict` semantics: bump the key in place if present, else append it with
count 1. -/
def bump : List (String × ℕ) → String → List (String × ℕ)
  | [], k => [(k, 1)]
  | (k', v) :: rest, k =>
    if k' = k then (k', v + 1) :: rest else (k', v) :: bump rest k

/-- Loop body of `count_by_level` (lines 108-115): the if/elif cascade on
the upper-cased line. -/
def countStep (counts : List (String × ℕ)) (log : String) : List (String × ℕ) :=
  let u := pyUpper log
  if hasSubstr u "ERROR" then bump counts "ERROR"
  else if hasSubstr u "WARNING" then bump counts "WARNING"
  else if hasSubstr u "INFO" then bump counts "INFO"
  else counts

/-- Embedding of `LogFileAnalyzer.count_by_level`
(src/energy_toolkit.py lines 105-116), the result dict modelled as an
insertion-ordered association list. -/
def count_by_level (logs : List String) : List (String × ℕ) :=
  logs.foldl countStep []

/-- Lookup in the association-list model of the returned dict: `some`
exactly when the key is present. -/
def lookupLevel : List (String × ℕ) → String → Option ℕ
  | [], _ => none
  | (k', v) :: rest, k => if k' = k then some v else lookupLevel rest k

/-- Spec-side classifier: the severity bucket of a line, matching the
literal tokens ERROR, WARNING, INFO case-insensitively in that priority
order, `none` when no token occurs. -/
def classify (log : String) : Option String :=
  let u := pyUpper log
  if hasSubstr u "ERROR" then some "ERROR"
  else if hasSubstr u "WARNING" then some "WARNING"
  else if hasSubstr u "INFO" then some "INFO"
  else none

/-- Embedding of `LogFileAnalyzer.extract_errors`
(src/energy_toolkit.py lines 118-120). -/
def extract_errors (logs : List String) : List String :=
  (logs.filter (fun log => hasSubstr (pyUpper log) "ERROR")).map pyStrip

/-- Bumping a key makes its count one more than before (0 when absent). -/
theorem lookupLevel_bump_self (m : List (String × ℕ)) (k : String) :
    lookupLevel (bump m k) k = some ((lookupLevel m k).getD 0 + 1) := by
  induction m with
  | nil => simp [bump, lookupLevel]
  | cons p rest ih =>
    obtain ⟨k', v⟩ := p
    by_cases h : k' = k
    · simp [bump, lookupLevel, h]
    · simp [bump, lookupLevel, h, ih]

/-- Bumping one key leaves every other key's lookup unchanged. -/
theorem lookupLevel_bump_ne (m : List (String × ℕ)) (k k' : String) (h : k ≠ k') :
    lookupLevel (bump m k) k' = lookupLevel m k' := by
  induction m with
  | nil => simp [bump, lookupLevel, h]
  | cons p rest ih =>
    obtain ⟨k'', v⟩ := p
    by_cases h2 : k'' = k
    · subst h2
      simp [bump, lookupLevel, h]
    · simp [bump, lookupLevel, h2, ih]

/-- The loop body is the spec-side classifier followed by a bump. -/
theorem countStep_classify (counts : List (String × ℕ)) (log : String) :
    countStep counts log =
      match classify log with
      | some k => bump counts k
      | none => counts := by
  simp only [countStep, classify]
  split_ifs <;> rfl

/-- Invariant of the counting fold: the final count of each level is its
count so far plus the number of remaining lines classified to it. -/
theorem foldl_count (logs : List String) : ∀ (m : List (String × ℕ)) (lvl : String),
    lookupLevel (logs.foldl countStep m) lvl =
      (match lookupLevel m lvl with
       | some v => some (v + logs.countP (fun l => classify l == some lvl))
       | none =>
         if logs.countP (fun l => classify l == some lvl) = 0 then none
         else some (logs.countP (fun l => classify l == some lvl))) := by
  induction logs with
  | nil =>
    intro m lvl
    cases h : lookupLevel m lvl <;> simp [h]
  | cons log rest ih =>
    intro m lvl
    rw [List.foldl_cons, ih (countStep m log) lvl, countStep_classify]
    cases hc : classify log with
    | none =>
      have hp : (classify log == some lvl) = false := by
        simp [hc]
      simp only [List.countP_cons, hp, if_false]
      cases h : lookupLevel m lvl <;> simp [h]
    | some k =>
      by_cases hk : k = lvl
      · subst hk
        have hp : (classify log == some k) = true := by
          simp [hc]
        simp only [List.countP_cons, hp, if_true, lookupLevel_bump_self]
        cases h : lookupLevel m k with
        | none => simp [h]; omega
        | some v => simp [h]; omega
      · have hp : (classify log == some lvl) = false := by
          simp [hc, hk]
        simp only [List.countP_cons, hp, if_false, lookupLevel_bump_ne m k lvl hk]
        simp

/-- A line is classified as ERROR exactly when its upper-cased content
contains the token. -/
theorem classify_error_iff (l : String) :
    (classify l == some "ERROR") = hasSubstr (pyUpper l) "ERROR" := by
  simp only [classify]
  by_cases h1 : hasSubstr (pyUpper l) "ERROR"
  · simp [h1]
  · rw [Bool.not_eq_true] at h1
    rw [h1, if_neg (by simp)]
    by_cases h2 : hasSubstr (pyUpper l) "WARNING"
    · simp [h2]
    · rw [Bool.not_eq_true] at h2
      rw [h2, if_neg (by simp)]
      by_cases h3 : hasSubstr (pyUpper l) "INFO"
      · simp [h3]
      · rw [Bool.not_eq_true] at h3
        rw [h3, if_neg (by simp)]
        rfl

/-! ### Theorems for claim C8 -/

/-- C8. `count_by_level` assigns each line to at most one severity bucket
by case-insensitive substring match against ERROR, WARNING, INFO in that
priority order (`classify`), and the resulting mapping binds a key exactly
when at least one line was classified to it — the bound value being that
number of lines — so severities never observed (and any other string) are
absent from the mapping. -/
theorem count_by_level_spec (logs : List String) : ∀ lvl : String,
    lookupLevel (count_by_level logs) lvl =
      (if logs.countP (fun l => classify l == some lvl) = 0 then none
       else some (logs.countP (fun l => classify l == some lvl))) := by
  intro lvl
  have h := foldl_count logs [] lvl
  simpa [count_by_level, lookupLevel] using h

/-! ### Theorems for claim C10 -/

/-- C10. The number of lines returned by `extract_errors` equals the
count stored under the ERROR key by `count_by_level`, read as 0 when the
key is absent: both select exactly the lines whose upper-cased content
contains the token ERROR, which has top priority in the classifier. -/
theorem extract_errors_count (logs : List String) :
    (extract_errors logs).length =
      ((lookupLevel (count_by_level logs) "ERROR").getD 0) := by
  have h := foldl_count logs [] "ERROR"
  simp only [lookupLevel] at h
  rw [count_by_level, h]
  have hcount : logs.countP (fun l => classify l == some "ERROR") =
      logs.countP (fun log => hasSubstr (pyUpper log) "ERROR") :=
    List.countP_congr (fun l _ => by rw [classify_error_iff])
  rw [extract_errors, List.length_map, ← List.countP_eq_length_filter, ← hcount]
  by_cases h0 : logs.countP (fun l => classify l == some "ERROR") = 0 <;>
    simp [h0]

/-! ### Log Classifier: `LogFileAnalyzer.find_pattern`

The source calls `re.search(pattern, log, re.IGNORECASE)` per line; an
invalid pattern makes `re` raise `re.error` (the `PatternError`), which
propagates to the caller.  The `re` engine is modelled by a small
executable core dialect: literal characters, `.`, and postfix `*`.
Patterns using other metacharacters are conservatively treated as
invalid, and genuinely malformed patterns such as `"("` are invalid both
here and in Python.  The claims below are stated relative to this model's
compile function, mirroring how `re.error` is raised lazily at the first
`re.search` call. -/

/-- A compiled token of the modelled regex dialect. -/
inductive RTok where
  | tchar (c : Char)
  | tdot
  deriving DecidableEq

/-- Case-insensitive single-token match (`re.IGNORECASE`). -/
def tokMatch : RTok → Char → Bool
  | RTok.tdot, _ => true
  | RTok.tchar c, x => decide (c.toUpper = x.toUpper)

/-- Compile a pattern into tokens, each flagged when starred.  Fails on a
dangling `*` and on metacharacters outside the modelled dialect. -/
def reCompileAux : List Char → Except Unit (List (RTok × Bool))
  | [] => Except.ok []
  | c :: '*' :: rest2 =>
    if c = '*' then Except.error ()
    else if c ∈ ['(', ')', '[', ']', '\\', '+', '?', '|', '^', '$',
        Char.ofNat 123, Char.ofNat 125] then Except.error ()
    else (reCompileAux rest2).map
      (fun ts => ((if c = '.' then RTok.tdot else RTok.tchar c), true) :: ts)
  | c :: rest =>
    if c = '*' then Except.error ()
    else if c ∈ ['(', ')', '[', ']', '\\', '+', '?', '|', '^', '$',
        Char.ofNat 123, Char.ofNat 125] then Except.error ()
    else (reCompileAux rest).map
      (fun ts => ((if c = '.' then RTok.tdot else RTok.tchar c), false) :: ts)

/-- Compile an entire pattern string. -/
def reCompile (pattern : String) : Except Unit (List (RTok × Bool)) :=
  reCompileAux pattern.toList

/-- Match a token list against a prefix of the character list. -/
def tmatch : List (RTok × Bool) → List Char → Bool
  | [], _ => true
  | (_, false) :: _, [] => false
  | (t, false) :: ts, c :: cs => tokMatch t c && tmatch ts cs
  | (_, true) :: ts, [] => tmatch ts []
  | (t, true) :: ts, c :: cs =>
    tmatch ts (c :: cs) || (tokMatch t c && tmatch ((t, true) :: ts) cs)
termination_by toks s => (s.length, toks.length)

/-- Model of `re.search` success with a compiled pattern: some contiguous
portion of the line, starting at any position, matches. -/
def reSearchCI (toks : List (RTok × Bool)) (line : String) : Bool :=
  (line.toList.tails).any (fun s => tmatch toks s)

/-- Model of `re.search(pattern, log, re.IGNORECASE)`: an invalid pattern
raises (`Except.error`), a valid one reports whether the line matches. -/
def re_search (pattern : String) (line : String) : Except Unit Bool :=
  (reCompile pattern).map (fun toks => reSearchCI toks line)

/-- Loop of `find_pattern` (lines 127-130): `i` is the 0-based position of
the first remaining line; a raised `re.error` aborts the whole call. -/
def findGo (pattern : String) : ℕ → List String → Except Unit (List (ℕ × String))
  | _, [] => Except.ok []
  | i, log :: rest =>
    match re_search pattern log with
    | Except.error e => Except.error e
    | Except.ok b =>
      match findGo pattern (i + 1) rest with
      | Except.error e => Except.error e
      | Except.ok ms => Except.ok (if b then (i + 1, pyStrip log) :: ms else ms)

/-- Embedding of `LogFileAnalyzer.find_pattern`
(src/energy_toolkit.py lines 122-131). -/
def find_pattern (logs : List String) (pattern : String) : Except Unit (List (ℕ × String)) :=
  findGo pattern 0 logs

/-- With a valid pattern the loop returns, in order, the 1-based indices
and stripped text of exactly the matching lines. -/
theorem findGo_ok (pattern : String) (toks : List (RTok × Bool))
    (h : reCompile pattern = Except.ok toks) (logs : List String) : ∀ i : ℕ,
    findGo pattern i logs = Except.ok ((logs.enumFrom i).filterMap (fun p =>
      if reSearchCI toks p.2 then some (p.1 + 1, pyStrip p.2) else none)) := by
  induction logs with
  | nil => intro i; simp [findGo]
  | cons log rest ih =>
    intro i
    simp only [findGo, re_search, h, Except.map, ih (i + 1), List.enumFrom_cons,
      List.filterMap_cons]
    by_cases hm : reSearchCI toks log <;> simp [hm]

/-! ### Theorems for claim C9 -/

/-- C9 (amended). With an invalid pattern, `find_pattern` surfaces the
`PatternError` raised by the first `re.search` call — hence on every
nonempty sequence of log lines it fails with that error, while on the
empty sequence the search never runs and it returns the empty match list.
With a valid pattern it returns, in original order, the pairs (1-based
line number, whitespace-trimmed line) of exactly the lines matched
case-insensitively. -/
theorem find_pattern_spec (logs : List String) (pattern : String) :
    (reCompile pattern = Except.error () → logs ≠ [] →
      find_pattern logs pattern = Except.error ())
    ∧ (∀ toks, reCompile pattern = Except.ok toks →
        find_pattern logs pattern = Except.ok (logs.enum.filterMap (fun p =>
          if reSearchCI toks p.2 then some (p.1 + 1, pyStrip p.2) else none))) := by
  constructor
  · intro herr hne
    match logs with
    | [] => exact absurd rfl hne
    | log :: rest =>
      simp [find_pattern, findGo, re_search, herr, Except.map]
  · intro toks hok
    rw [find_pattern, findGo_ok pattern toks hok logs 0, List.enum]

unseal tmatch

/-- Witness for C9: the invalid pattern `"("` aborts a one-line search
with the pattern error, and the valid pattern `"b"` finds exactly the
matching line with its 1-based index. -/
theorem find_pattern_spec_witness :
    find_pattern ["boom"] "(" = Except.error ()
    ∧ find_pattern ["abc", "xyz"] "b" = Except.ok [(1, "abc")] := by
  constructor
  · exact (find_pattern_spec ["boom"] "(").1 rfl (by simp)
  · rw [(find_pattern_spec ["abc", "xyz"] "b").2 [(RTok.tchar 'b', false)] rfl]
    rfl

/-- C9 as frozen is false: an invalid pattern over the empty sequence of
log lines returns the empty match list instead of failing, because the
source raises only inside the per-line loop and the loop body never runs. -/
theorem find_pattern_empty_counterexample :
    reCompile "(" = Except.error ()
    ∧ find_pattern ([] : List String) "(" = Except.ok [] :=
  ⟨rfl, rfl⟩

/-! ### Time-Series Analyzer: `TimeSeriesAnalyzer.detect_anomalies`

`statistics.stdev` is the sample standard deviation: the square root of
the sum of squared deviations from the mean divided by `n - 1`.  The
square root forces the standard deviation (and the z-scores built from
it) into `ℝ`; the series data stays rational. -/

/-- Sum of squared deviations from the mean. -/
def sumSqDev (l : List ℚ) : ℚ := (l.map (fun x => (x - mean l) ^ 2)).sum

/-- Sample variance, with the n−1 denominator of `statistics.stdev`.
Python raises for lists shorter than 2; the only call site guards with
`len(self.data) < 2`, and on shorter lists this model divides by zero
(giving `0`), a value no claim depends on. -/
def svar (l : List ℚ) : ℚ := sumSqDev l / ((l.length : ℚ) - 1)

/-- Model of `statistics.stdev`: the square root of the sample variance. -/
noncomputable def stdev (l : List ℚ) : ℝ := Real.sqrt ((svar l : ℚ) : ℝ)

/-- The z-score of line 166 of the source:
`abs((val - mean) / stdev) if stdev > 0 else 0`. -/
noncomputable def zval (m : ℚ) (s : ℝ) (v : ℚ) : ℝ :=
  if 0 < s then |((v : ℝ) - (m : ℝ)) / s| else 0

/-- Loop of `detect_anomalies` (lines 164-168): `i` is the 0-based index
of the first remaining value; indices whose z-score strictly exceeds the
threshold are collected in order. -/
noncomputable def detectGo (m : ℚ) (s : ℝ) (t : ℚ) : ℕ → List ℚ → List ℕ
  | _, [] => []
  | i, v :: rest =>
    if (t : ℝ) < zval m s v then i :: detectGo m s t (i + 1) rest
    else detectGo m s t (i + 1) rest

/-- Embedding of `TimeSeriesAnalyzer.detect_anomalies`
(src/energy_toolkit.py lines 153-169). -/
noncomputable def detect_anomalies (data : List ℚ) (threshold : ℚ) : List ℕ :=
  if data.length < 2 then []
  else detectGo (mean data) (stdev data) threshold 0 data

/-- Spec-side z-score of an index: the absolute deviation of the value at
that index from the series mean, divided by the sample standard
deviation when the latter is positive, and 0 otherwise. -/
noncomputable def zscore (data : List ℚ) (i : ℕ) : ℝ :=
  if 0 < stdev data then
    |((data.getD i 0 : ℚ) : ℝ) - ((mean data : ℚ) : ℝ)| / stdev data
  else 0

/-- The source's z-score expression agrees with the spec-side one. -/
theorem zval_eq_zscore (data : List ℚ) (i : ℕ) :
    zval (mean data) (stdev data) (data.getD i 0) = zscore data i := by
  unfold zval zscore
  by_cases hs : 0 < stdev data
  · rw [if_pos hs, if_pos hs, abs_div, abs_of_pos hs]
  · rw [if_neg hs, if_neg hs]

/-- Membership in the detection loop's output, relative to the starting
index. -/
theorem mem_detectGo (m : ℚ) (s : ℝ) (t : ℚ) (l : List ℚ) : ∀ i0 j : ℕ,
    j ∈ detectGo m s t i0 l ↔
      ∃ k : ℕ, k < l.length ∧ j = i0 + k ∧ (t : ℝ) < zval m s (l.getD k 0) := by
  induction l with
  | nil => intro i0 j; simp [detectGo]
  | cons v rest ih =>
    intro i0 j
    by_cases hz : (t : ℝ) < zval m s v
    · simp only [detectGo, if_pos hz, List.mem_cons]
      rw [ih (i0 + 1) j]
      constructor
      · rintro (rfl | ⟨k, hk, rfl, hzk⟩)
        · exact ⟨0, by simp, by omega, by simpa using hz⟩
        · exact ⟨k + 1, by simp only [List.length_cons]; omega, by omega,
            by simpa using hzk⟩
      · rintro ⟨k, hk, hj, hzk⟩
        cases k with
        | zero => exact Or.inl (by omega)
        | succ k =>
          refine Or.inr ⟨k, ?_, by omega, by simpa using hzk⟩
          simp only [List.length_cons] at hk
          omega
    · simp only [detectGo, if_neg hz]
      rw [ih (i0 + 1) j]
      constructor
      · rintro ⟨k, hk, hj, hzk⟩
        exact ⟨k + 1, by simp only [List.length_cons]; omega, by omega,
          by simpa using hzk⟩
      · rintro ⟨k, hk, hj, hzk⟩
        cases k with
        | zero => exact absurd (by simpa using hzk) hz
        | succ k =>
          refine ⟨k, ?_, by omega, by simpa using hzk⟩
          simp only [List.length_cons] at hk
          omega

/-- Every reported index is at least the starting index. -/
theorem detectGo_ge (m : ℚ) (s : ℝ) (t : ℚ) (l : List ℚ) : ∀ i0 : ℕ,
    ∀ j ∈ detectGo m s t i0 l, i0 ≤ j := by
  induction l with
  | nil => intro i0 j hj; simp [detectGo] at hj
  | cons v rest ih =>
    intro i0 j hj
    by_cases hz : (t : ℝ) < zval m s v
    · simp only [detectGo, if_pos hz, List.mem_cons] at hj
      rcases hj with rfl | hj
      · exact le_rfl
      · exact Nat.le_of_succ_le (ih (i0 + 1) j hj)
    · simp only [detectGo, if_neg hz] at hj
      exact Nat.le_of_succ_le (ih (i0 + 1) j hj)

/-- The detection loop reports indices in strictly ascending order. -/
theorem detectGo_pairwise (m : ℚ) (s : ℝ) (t : ℚ) (l : List ℚ) : ∀ i0 : ℕ,
    (detectGo m s t i0 l).Pairwise (· < ·) := by
  induction l with
  | nil => intro i0; simp [detectGo]
  | cons v rest ih =>
    intro i0
    by_cases hz : (t : ℝ) < zval m s v
    · simp only [detectGo, if_pos hz]
      refine List.pairwise_cons.mpr ⟨?_, ih (i0 + 1)⟩
      intro j hj
      exact Nat.lt_of_succ_le (detectGo_ge m s t rest (i0 + 1) j hj)
    · simp only [detectGo, if_neg hz]
      exact ih (i0 + 1)

/-! ### Theorems for claim C6 -/

/-- C6. For a positive threshold, `detect_anomalies` returns the empty
sequence on series of length below 2; otherwise, using the series mean
and the sample standard deviation (n−1 denominator) inside `zscore`, it
returns, in strictly ascending order, exactly the indices of the series
whose z-score strictly exceeds the threshold. -/
theorem detect_anomalies_spec (data : List ℚ) (t : ℚ) (ht : 0 < t) :
    (data.length < 2 → detect_anomalies data t = [])
    ∧ (∀ i : ℕ, i ∈ detect_anomalies data t ↔
        2 ≤ data.length ∧ i < data.length ∧ (t : ℝ) < zscore data i)
    ∧ (detect_anomalies data t).Pairwise (· < ·) := by
  refine ⟨fun h => by simp [detect_anomalies, h], ?_, ?_⟩
  · intro i
    by_cases h : data.length < 2
    · simp only [detect_anomalies, if_pos h]
      constructor
      · intro hmem; simp at hmem
      · rintro ⟨h2, -, -⟩; omega
    · simp only [detect_anomalies, if_neg h]
      rw [mem_detectGo]
      constructor
      · rintro ⟨k, hk, rfl, hzk⟩
        refine ⟨by omega, by omega, ?_⟩
        rw [show (0 : ℕ) + k = k from by omega] at *
        rw [← zval_eq_zscore data k]
        exact hzk
      · rintro ⟨h2, hi, hz⟩
        exact ⟨i, hi, by omega, by rw [zval_eq_zscore data i]; exact hz⟩
  · by_cases h : data.length < 2
    · simp [detect_anomalies, h]
    · simp only [detect_anomalies, if_neg h]
      exact detectGo_pairwise (mean data) (stdev data) t data 0

/-- Witness for C6 at concrete inputs: a singleton series yields no
anomalies, and no index at or beyond the series length is ever reported. -/
theorem detect_anomalies_spec_witness :
    detect_anomalies [5] 2 = [] ∧ ¬(3 ∈ detect_anomalies [1, 2] 2) := by
  have h1 := (detect_anomalies_spec [5] 2 (by norm_num)).1 (by simp)
  have h2 := (detect_anomalies_spec [1, 2] 2 (by norm_num)).2.1 3
  refine ⟨h1, fun hmem => ?_⟩
  have := (h2.mp hmem).2.1
  simp at this

/-! ### Theorems for claim C2 -/

/-- Sum of a constant list. -/
theorem sum_const_list (l : List ℚ) (c : ℚ) (h : ∀ x ∈ l, x = c) :
    l.sum = (l.length : ℚ) * c := by
  induction l with
  | nil => simp
  | cons v rest ih =>
    have hv : v = c := h v (List.mem_cons_self v rest)
    rw [List.sum_cons, ih (fun x hx => h x (List.mem_cons_of_mem v hx)), hv,
      List.length_cons]
    push_cast
    ring

/-- Mean of a nonempty constant list. -/
theorem mean_const (l : List ℚ) (c : ℚ) (hne : l ≠ []) (h : ∀ x ∈ l, x = c) :
    mean l = c := by
  have hlen : (l.length : ℚ) ≠ 0 := by
    have h1 : 0 < l.length := List.length_pos.mpr hne
    exact Nat.cast_ne_zero.mpr (by omega)
  rw [mean, sum_const_list l c h, mul_comm, mul_div_assoc, div_self hlen, mul_one]

/-- Sample variance of a nonempty constant list is zero. -/
theorem svar_const (l : List ℚ) (c : ℚ) (hne : l ≠ []) (h : ∀ x ∈ l, x = c) :
    svar l = 0 := by
  rw [svar, sumSqDev]
  rw [List.sum_eq_zero, zero_div]
  intro y hy
  obtain ⟨x, hx, rfl⟩ := List.mem_map.mp hy
  rw [h x hx, mean_const l c hne h]
  ring

/-- Sample standard deviation of a nonempty constant list is zero. -/
theorem stdev_const (l : List ℚ) (c : ℚ) (hne : l ≠ []) (h : ∀ x ∈ l, x = c) :
    stdev l = 0 := by
  rw [stdev, svar_const l c hne h]
  simp

/-- When the standard deviation is not positive and the threshold is
nonnegative, the loop reports nothing: every z-score is literally 0. -/
theorem detectGo_nonpos (m : ℚ) (s : ℝ) (t : ℚ) (hs : ¬0 < s) (ht : 0 ≤ t)
    (l : List ℚ) : ∀ i0 : ℕ, detectGo m s t i0 l = [] := by
  induction l with
  | nil => intro i0; simp [detectGo]
  | cons v rest ih =>
    intro i0
    have hz : zval m s v = 0 := if_neg hs
    have hcond : ¬((t : ℝ) < zval m s v) := by
      rw [hz]
      exact not_lt.mpr (by exact_mod_cast ht)
    simp only [detectGo, if_neg hcond]
    exact ih (i0 + 1)

/-- C2 (amended). On every constant series — where the sample standard
deviation is zero — `detect_anomalies` returns the empty sequence for
every nonnegative threshold: each z-score is set to 0, and `0 > threshold`
fails.  (A negative threshold does report every index; see the
counterexample.) -/
theorem detect_anomalies_const (data : List ℚ) (c : ℚ) (t : ℚ)
    (hconst : ∀ x ∈ data, x = c) (ht : 0 ≤ t) :
    detect_anomalies data t = [] := by
  by_cases h : data.length < 2
  · simp [detect_anomalies, h]
  · have hne : data ≠ [] := by
      intro he
      rw [he] at h
      simp at h
    simp only [detect_anomalies, if_neg h]
    refine detectGo_nonpos (mean data) (stdev data) t ?_ ht data 0
    rw [stdev_const data c hne hconst]
    exact lt_irrefl 0

/-- Witness for C2: the specification's constant series `[5,5,5,5]` with
the nonnegative threshold 0 yields no anomalies. -/
theorem detect_anomalies_const_witness :
    detect_anomalies [5, 5, 5, 5] 0 = [] := by
  refine detect_anomalies_const [5, 5, 5, 5] 5 0 ?_ le_rfl
  intro x hx
  simp only [List.mem_cons, List.not_mem_nil, or_false, or_self] at hx
  exact hx

/-- C2 as frozen is false: on the constant series `[5,5,5,5]` with the
(negative) threshold `-1`, every z-score is 0, `0 > -1` holds, and the
source reports every index rather than none. -/
theorem detect_anomalies_const_counterexample :
    detect_anomalies [5, 5, 5, 5] (-1) = [0, 1, 2, 3]
    ∧ detect_anomalies [5, 5, 5, 5] (-1) ≠ [] := by
  have hm : mean [5, 5, 5, 5] = 5 := by
    norm_num [mean]
  have hv : svar [5, 5, 5, 5] = 0 := by
    norm_num [svar, sumSqDev, hm]
  have hs : stdev [5, 5, 5, 5] = 0 := by
    rw [stdev, hv]
    simp
  have hz : zval 5 0 5 = 0 := if_neg (lt_irrefl 0)
  have hcond : ((-1 : ℚ) : ℝ) < zval (mean [5, 5, 5, 5]) (stdev [5, 5, 5, 5]) 5 := by
    rw [hm, hs, hz]
    norm_num
  have h1 : detect_anomalies [5, 5, 5, 5] (-1) = [0, 1, 2, 3] := by
    simp only [detect_anomalies, List.length_cons, List.length_nil]
    rw [if_neg (by omega)]
    simp only [detectGo, if_pos hcond]
  exact ⟨h1, by rw [h1]; simp⟩

end EnergyToolkit
